import Mathlib

/-!
Shallow embedding of the discord-scheduler poll engine
(src/main.rs, src/scheduler.rs) and verification of its specification.

Calendar dates (`chrono::NaiveDate`) are embedded as natural numbers
counting days from an epoch chosen so that day `d` has weekday `d % 7`,
with Saturday at residue 6 (so residue 0 is Sunday).  Platform
identifiers (user, role and message ids) are opaque numbers.
Side-effecting Discord calls (`update_message`, ephemeral follow-ups)
do not touch poll state and are omitted; the date of the system clock
(`Local::today()`) becomes an explicit `today` parameter.
-/

/-- Weekday of a day number: residue mod 7 (0 = Sunday, …, 6 = Saturday). -/
def weekday (d : Nat) : Nat := d % 7

/-- The anchor weekday `Weekday::Sat` of `Scheduler::new`. -/
def satResidue : Nat := 6

/-- The `while start_date.weekday() != Weekday::Sat` advance loop of
`Scheduler::new` (src/scheduler.rs lines 59-62).  The loop always halts
within 7 steps; the fuel argument makes that termination explicit and the
callers pass fuel 7. -/
def nextSatFrom : Nat → Nat → Nat
  | 0, d => d
  | fuel + 1, d => if weekday d = satResidue then d else nextSatFrom fuel (d + 1)

/-- `DateRule::daily(start).with_end(end)`: the days in `[start, stop)`. -/
def dateRange (start stop : Nat) : List Nat :=
  (List.range (stop - start)).map (fun k => start + k)

/-- `Response { dates: HashSet<NaiveDate> }` (src/scheduler.rs lines 24-27). -/
structure Response where
  dates : Finset Nat
deriving DecidableEq

instance : EmptyCollection Response := ⟨⟨∅⟩⟩

/-- `Response::default()`: the empty date set. -/
def Response.default : Response := ⟨∅⟩

/-- `HashMap` lookup (`map.get(&k)`), on the association-list embedding of a
`HashMap` keyed by a platform id: the value of the entry for `k`, if any. -/
def assocLookup {α : Type} (l : List (Nat × α)) (k : Nat) : Option α :=
  (l.find? (fun p => p.1 = k)).map Prod.snd

/-- `HashMap` upsert (`map.insert(k, v)`): replace the entry for an existing
key, otherwise add a fresh entry. -/
def assocInsert {α : Type} (l : List (Nat × α)) (k : Nat) (v : α) :
    List (Nat × α) :=
  if l.any (fun p => p.1 = k) then
    l.map (fun p => if p.1 = k then (k, v) else p)
  else
    l ++ [(k, v)]

/-- The `Scheduler` poll record (src/scheduler.rs lines 35-46).
the response map keyed by user id is embedded as an association list
with HashMap update semantics (one entry per key); `message: MessageShim`
is kept as its opaque message id. -/
structure Scheduler where
  owner : Nat
  title : String
  dates : List Nat
  blackout_dates : Finset Nat
  group : Option Nat
  message : Nat
  responses : List (Nat × Response)
  closed : Bool
deriving DecidableEq

namespace Scheduler

/-- `Scheduler::new` (src/scheduler.rs lines 49-79).  `Local::today()` is the
explicit `today` argument; `weeks` and `skip` are the (validated non-negative)
command options; `days` is the weekday filter as a set of residues. -/
def new (owner : Nat) (group : Option Nat) (message : Nat)
    (weeks : Nat) (skip : Option Nat) (title : String) (days : Finset Nat)
    (today : Nat) : Scheduler :=
  let start0 := nextSatFrom 7 (today + 1)
  let start_date := match skip with
    | some s => start0 + 7 * s
    | none => start0
  let end_date := start_date + 7 * weeks
  let dates := (dateRange start_date end_date).filter (fun d => weekday d ∈ days)
  { owner := owner
    title := title
    dates := dates
    blackout_dates := ∅
    group := group
    message := message
    responses := []
    closed := false }

/-- `Scheduler::get_dates`. -/
def get_dates (s : Scheduler) : List Nat := s.dates

/-- `Scheduler::get_blackout_dates`. -/
def get_blackout_dates (s : Scheduler) : Finset Nat := s.blackout_dates

/-- `Scheduler::get_user_response`: `self.responses.get(user).cloned()`. -/
def get_user_response (s : Scheduler) (u : Nat) : Option Response :=
  assocLookup s.responses u

/-- `Scheduler::add_response` (src/scheduler.rs lines 124-127):
`self.responses.insert(user, response)`, without the Discord
`update_message` side effect. -/
def add_response (s : Scheduler) (u : Nat) (r : Response) : Scheduler :=
  { s with responses := assocInsert s.responses u r }

/-- `Scheduler::set_blackout` (src/scheduler.rs lines 129-132). -/
def set_blackout (s : Scheduler) (r : Response) : Scheduler :=
  { s with blackout_dates := r.dates }

/-- `Scheduler::close` (src/scheduler.rs lines 318-321). -/
def close (s : Scheduler) : Scheduler :=
  { s with closed := true }

/-- A Discord user mention `<@id>`. -/
def mention (u : Nat) : String := "<@" ++ toString u ++ ">"

/-- `Scheduler::get_responses` (src/scheduler.rs lines 134-148): the
"Responded" summary string. -/
def get_responses (s : Scheduler) : String :=
  if s.responses.isEmpty then
    "**0**"
  else
    "**" ++ toString s.responses.length ++ "** (" ++
      String.intercalate ", " (s.responses.map (fun p => mention p.1)) ++ ")"

/-- The distinct users whose response contains `date`: the `HashSet` built by
the inner loop of `get_results` (src/scheduler.rs lines 155-160), kept as a
deduplicated list of user ids. -/
def usersFor (s : Scheduler) (date : Nat) : List Nat :=
  (((s.responses).filter (fun p => date ∈ p.2.dates)).map Prod.fst).dedup

/-- `date.format("%a %Y-%m-%d")`: weekday abbreviation then the day number
(the embedding of chrono's date rendering; injective on the model). -/
def formatDate (d : Nat) : String :=
  (match weekday d with
    | 0 => "Sun"
    | 1 => "Mon"
    | 2 => "Tue"
    | 3 => "Wed"
    | 4 => "Thu"
    | 5 => "Fri"
    | _ => "Sat") ++ " " ++ toString d

/-- The `results` iterator of `get_results` (src/scheduler.rs lines 151-163):
each non-blacked-out candidate date with its set of responding users. -/
def resultsPairs (s : Scheduler) : List (Nat × List Nat) :=
  s.dates.filterMap (fun date =>
    if date ∈ s.blackout_dates then none else some (date, usersFor s date))

/-- `Scheduler::get_results` (src/scheduler.rs lines 150-190): one report line
per non-blacked-out candidate date; the top count is underline-emphasized;
`detailed` appends the sorted responder mentions when there are any. -/
def get_results (s : Scheduler) (detailed : Bool) : List String :=
  let results := resultsPairs s
  let max := ((results.map (fun p => p.2.length)).max?).getD 0
  results.map (fun p =>
    let count := p.2.length
    let date := formatDate p.1
    let line := if 0 < max ∧ count = max then
        "__`" ++ date ++ ":`__ " ++ toString count
      else
        "`" ++ date ++ ":` " ++ toString count
    if detailed ∧ ¬ p.2.isEmpty then
      line ++ " - " ++
        String.intercalate ", " ((p.2.insertionSort (· ≤ ·)).map mention)
    else
      line)

/-- One step of the chunk-accumulation loop of `Scheduler::show_details`
(src/scheduler.rs lines 247-255): `content.len() + line.len() >= 2000` closes
the current chunk; the line and its newline then join the open chunk. -/
def chunkStep (acc : List String × String) (line : String) : List String × String :=
  let messages := acc.1
  let content := acc.2
  if content.length + line.length ≥ 2000 then
    (messages ++ [content], line ++ "\n")
  else
    (messages, content ++ line ++ "\n")

/-- The chunking loop of `Scheduler::show_details`: returns the closed chunks
(`messages`) and the still-open `last_content`, all of which are sent. -/
def show_details_chunks (lines : List String) : List String × String :=
  lines.foldl chunkStep ([], "")

/-- All chunks `show_details` sends: the closed ones, then `last_content`. -/
def allChunks (lines : List String) : List String :=
  (show_details_chunks lines).1 ++ [(show_details_chunks lines).2]

end Scheduler

/-! ## The Response Session (`get_response`, src/scheduler.rs lines 399-496)

The interactive loop is driven by the stream of the initiating user's button
presses; the stream ends when `submit` arrives or, if the list of presses is
exhausted, by the `RESP_TIMEOUT` deadline elapsing (`await_component_interaction
... .timeout` returning `None`). -/

/-- `ResponseType` (src/scheduler.rs lines 18-22). -/
inductive ResponseType
  | Normal
  | Blackout
deriving DecidableEq

/-- A button press arriving in the `get_response` loop: `custom_id` is
"submit", "select_all", "clear_all" or "select i". -/
inductive Press
  | submit
  | select_all
  | clear_all
  | select (i : Nat)
deriving DecidableEq

/-- One non-terminal iteration of the `get_response` loop body: how a press
other than `submit` rewrites the draft response.  In the source, `select i`
with `i` out of range of `dates` panics (caller contract violation); the
embedding leaves the draft unchanged there.  Note the `select_all` arm filters
out `blackout_dates` without consulting `resp_type`. -/
def pressStep (dates : List Nat) (blackout_dates : Finset Nat)
    (_resp_type : ResponseType) (response : Response) (p : Press) : Response :=
  match p with
  | .submit => response
  | .select_all => ⟨(dates.filter (fun d => d ∉ blackout_dates)).toFinset⟩
  | .clear_all => ⟨∅⟩
  | .select i =>
    match dates.get? i with
    | some date =>
      if date ∈ response.dates then ⟨response.dates.erase date⟩
      else ⟨insert date response.dates⟩
    | none => response

/-- `get_response` (src/scheduler.rs lines 399-496): fold the press stream
over the seeded draft; `submit` returns the current draft, an exhausted
stream is the deadline timeout and returns nothing. -/
def get_response (dates : List Nat) (blackout_dates : Finset Nat)
    (resp_type : ResponseType) :
    Response → List Press → Option Response
  | _, [] => none
  | response, p :: rest =>
    match p with
    | .submit => some response
    | p => get_response dates blackout_dates resp_type
        (pressStep dates blackout_dates resp_type response p) rest

/-! ## Registry and persistence (src/main.rs)

`Handler.schedulers`, the lock-protected map from message id to poll, with the
file-per-poll store under `data/`.  The file system is the `files` map; to
express "writes exactly once", every `write_file` call is also appended to a
`writeLog`. -/

/-- The state the `Handler` owns: the in-memory registry, the on-disk
records, and the log of `write_file` invocations. -/
structure SysState where
  schedulers : List (Nat × Scheduler)
  files : List (Nat × Scheduler)
  writeLog : List (Nat × Scheduler)
deriving DecidableEq

/-- `write_file(id, scheduler)` (src/main.rs lines 101-104): overwrite the
poll's on-disk record, and log the invocation. -/
def write_file (st : SysState) (id : Nat) (s : Scheduler) : SysState :=
  { st with
    files := assocInsert st.files id s
    writeLog := st.writeLog ++ [(id, s)] }

/-- `Handler::get_mut_scheduler` followed by the wrapper going out of scope:
the scope body `f` runs on the looked-up scheduler under the write lock, and
`Drop for ScheduleWrapper` (src/main.rs lines 53-57) then calls `write_file`
with the scheduler's state as of release — on every exit path, whatever `f`
did.  Returns the state unchanged when the id is absent (`try_map` fails). -/
def withMutScheduler (st : SysState) (id : Nat)
    (f : Scheduler → Scheduler) : SysState :=
  match assocLookup st.schedulers id with
  | none => st
  | some s =>
    let s2 := f s
    write_file { st with schedulers := assocInsert st.schedulers id s2 } id s2

/-- The one recoverable validation error of poll creation. -/
inductive CreateError
  | TitleTooLong
deriving DecidableEq

/-- `Handler::create_scheduler` (src/main.rs lines 153-207): reject a title
longer than 256 bytes before doing anything else; otherwise build the
scheduler, persist it and register it.  Returns the new state and the error
surfaced to the caller, if any.  `title.len()` is Rust's UTF-8 byte length. -/
def create_scheduler (st : SysState) (user : Nat) (group : Option Nat)
    (weeks : Nat) (skip : Option Nat) (title : String) (days : Finset Nat)
    (today : Nat) (message_id : Nat) : SysState × Option CreateError :=
  if title.utf8ByteSize > 256 then
    (st, some .TitleTooLong)
  else
    let scheduler := Scheduler.new user group message_id weeks skip title days today
    let st := write_file st message_id scheduler
    ({ st with schedulers := assocInsert st.schedulers message_id scheduler }, none)

/-- `Handler::handle_get_response` (src/main.rs lines 209-259) for the
`Normal` and `Blackout` kinds: read the poll, seed the draft (the user's
previous response, or the current blackout set), run the session outside the
lock, and only on a submitted result commit it through the exclusive-write
accessor via `add_response` / `set_blackout`.  `can_respond` is the external
role-membership check, injected as a boolean. -/
def handle_get_response (st : SysState) (user : Nat) (message_id : Nat)
    (resp_type : ResponseType) (can_respond : Bool) (presses : List Press) :
    SysState :=
  match assocLookup st.schedulers message_id with
  | none => st
  | some scheduler =>
    if ¬ can_respond then st
    else
      let dates := scheduler.get_dates
      let blackout_dates := scheduler.get_blackout_dates
      let response := match resp_type with
        | .Normal => (scheduler.get_user_response user).getD Response.default
        | .Blackout => ⟨blackout_dates⟩
      match get_response dates blackout_dates resp_type response presses with
      | none => st
      | some r =>
        withMutScheduler st message_id (fun s =>
          match resp_type with
          | .Normal => s.add_response user r
          | .Blackout => s.set_blackout r)

/-! ## Poll operations as a transition system (for the lifecycle claims) -/

/-- The mutating operations a registered poll undergoes. -/
inductive PollOp
  | addResponse (u : Nat) (r : Response)
  | setBlackout (r : Response)
  | closePoll
deriving DecidableEq

/-- Apply one mutating operation to a poll. -/
def applyOp (s : Scheduler) : PollOp → Scheduler
  | .addResponse u r => s.add_response u r
  | .setBlackout r => s.set_blackout r
  | .closePoll => s.close

/-- Apply a whole history of mutating operations to a poll. -/
def applyOps (s : Scheduler) (ops : List PollOp) : Scheduler :=
  ops.foldl applyOp s

/-- The seeding of the session draft in `Handler::handle_get_response`
(src/main.rs lines 235-241): a `Normal` session starts from the user's
previous response (or empty), a `Blackout` session from the current
blackout set. -/
def sessionSeed (sch : Scheduler) (user : Nat) : ResponseType → Response
  | .Normal => (sch.get_user_response user).getD Response.default
  | .Blackout => ⟨sch.get_blackout_dates⟩

/-- The commit step of `Handler::handle_get_response` (src/main.rs lines
249-257): a submitted `Normal` draft goes through `add_response`, a submitted
`Blackout` draft through `set_blackout`. -/
def commitResult (rt : ResponseType) (user : Nat) (r : Response)
    (s : Scheduler) : Scheduler :=
  match rt with
  | .Normal => s.add_response user r
  | .Blackout => s.set_blackout r

/-! ## Concrete example states, used to instantiate the theorems -/

/-- A small concrete poll: three candidate dates (Sat 6, Sun 7, Sat 13),
date 13 blacked out, two responders. -/
def exSched : Scheduler :=
  ⟨0, "t", [6, 7, 13], {13}, none, 9, [(1, ⟨{6}⟩), (2, ⟨{6, 7}⟩)], false⟩

/-- A system state holding `exSched` under id 9, in memory and on disk. -/
def exState : SysState := ⟨[(9, exSched)], [(9, exSched)], []⟩

/-- A 257-byte title, one byte over the creation limit. -/
def longTitle : String := String.mk (List.replicate 257 'a')


/-- A 1999-character report line, one character under the asserted bound. -/
def bigLine : String := String.mk (List.replicate 1999 'a')

/-- The set of distinct users whose response contains `d` (the claim-side
view of `usersFor`). -/
def distinctResponders (s : Scheduler) (d : Nat) : Finset Nat :=
  (Scheduler.usersFor s d).toFinset

/-- The highest per-date responder count over the non-blacked-out candidate
dates (0 when there are none). -/
def maxTally (s : Scheduler) : Nat :=
  (((s.dates.filter (fun d => d ∉ s.blackout_dates)).map
    (fun d => (Scheduler.usersFor s d).length)).max?).getD 0

/-- The non-detailed report line for date `d`: `weekday date: count`,
underline-emphasized exactly when the count is the positive maximum. -/
def baseLine (s : Scheduler) (d : Nat) : String :=
  if 0 < maxTally s ∧ (Scheduler.usersFor s d).length = maxTally s then
    "__`" ++ Scheduler.formatDate d ++ ":`__ " ++
      toString (Scheduler.usersFor s d).length
  else
    "`" ++ Scheduler.formatDate d ++ ":` " ++
      toString (Scheduler.usersFor s d).length

/-- The ascending sort of the distinct responders for date `d`
(`users.iter().sorted()`). -/
def sortedResponders (s : Scheduler) (d : Nat) : List Nat :=
  (Scheduler.usersFor s d).insertionSort (· ≤ ·)

/-- What the detailed tally appends to the line of date `d`: nothing when
nobody picked the date, otherwise a dash and the sorted responder
mentions. -/
def detailSuffix (s : Scheduler) (d : Nat) : String :=
  if (Scheduler.usersFor s d).isEmpty then ""
  else
    " - " ++ String.intercalate ", "
      ((sortedResponders s d).map Scheduler.mention)

/-! ## Association-list lemmas -/

theorem find?_map_replace {α : Type} (k : Nat) (v : α) :
    ∀ l : List (Nat × α), l.any (fun p => p.1 = k) = true →
      (l.map (fun p => if p.1 = k then (k, v) else p)).find?
        (fun p => p.1 = k) = some (k, v)
  | [], h => by simp at h
  | q :: t, h => by
    by_cases hq : q.1 = k
    · simp [List.find?, hq]
    · have ht : t.any (fun p => p.1 = k) = true := by
        simpa [List.any_cons, hq] using h
      simpa [List.find?, hq] using find?_map_replace k v t ht

theorem find?_append_fresh {α : Type} (k : Nat) (v : α) :
    ∀ l : List (Nat × α), l.any (fun p => p.1 = k) = false →
      (l ++ [(k, v)]).find? (fun p => p.1 = k) = some (k, v)
  | [], _ => by simp [List.find?]
  | q :: t, h => by
    have hq : ¬ q.1 = k := by
      intro hk
      simp [List.any_cons, hk] at h
    have ht : t.any (fun p => p.1 = k) = false := by
      simpa [List.any_cons, hq] using h
    simpa [List.find?, hq] using find?_append_fresh k v t ht

theorem assocLookup_assocInsert_self {α : Type} (l : List (Nat × α)) (k : Nat)
    (v : α) : assocLookup (assocInsert l k v) k = some v := by
  unfold assocInsert
  by_cases h : l.any (fun p => p.1 = k)
  · simp [assocLookup, h, find?_map_replace k v l h]
  · rw [if_neg h]
    unfold assocLookup
    rw [find?_append_fresh k v l (Bool.eq_false_iff.mpr h)]
    rfl

theorem assocInsert_length_of_mem {α : Type} (l : List (Nat × α)) (k : Nat)
    (v : α) (h : k ∈ l.map Prod.fst) :
    (assocInsert l k v).length = l.length := by
  have hany : l.any (fun p => p.1 = k) = true := by
    simp only [List.mem_map] at h
    obtain ⟨p, hp, hk⟩ := h
    simp only [List.any_eq_true]
    exact ⟨p, hp, by simp [hk]⟩
  simp [assocInsert, hany]

theorem assocInsert_length_of_not_mem {α : Type} (l : List (Nat × α)) (k : Nat)
    (v : α) (h : k ∉ l.map Prod.fst) :
    (assocInsert l k v).length = l.length + 1 := by
  have hany : l.any (fun p => p.1 = k) = false := by
    simp only [List.any_eq_false]
    intro p hp
    simp only [decide_eq_true_eq]
    intro hk
    exact h (by simp only [List.mem_map]; exact ⟨p, hp, hk⟩)
  simp [assocInsert, hany]

theorem mem_keys_assocInsert {α : Type} (l : List (Nat × α)) (k : Nat)
    (v : α) : k ∈ (assocInsert l k v).map Prod.fst := by
  unfold assocInsert
  by_cases h : l.any (fun p => p.1 = k)
  · simp only [h, if_true]
    simp only [List.any_eq_true, decide_eq_true_eq] at h
    obtain ⟨p, hp, hk⟩ := h
    simp only [List.map_map, List.mem_map]
    exact ⟨p, hp, by simp [hk]⟩
  · simp [h]

theorem assocInsert_ne_nil {α : Type} (l : List (Nat × α)) (k : Nat) (v : α) :
    assocInsert l k v ≠ [] := by
  unfold assocInsert
  by_cases h : l.any (fun p => p.1 = k)
  · simp only [h, if_true]
    cases l with
    | nil => simp at h
    | cons q t => simp
  · simp [h]

/-! ## C1: commit-on-release of the exclusive-write accessor -/

/-- C1: whenever the exclusive-write accessor for a registered poll id is
released — on any exit path of the critical section `f`, error paths
included — `write_file` is invoked exactly once for that id (the write log
grows by exactly that one entry), with the poll's state as of release; after
the release the persisted record for the id equals the in-memory poll
state. -/
theorem c1_commit_on_release (st : SysState) (id : Nat)
    (f : Scheduler → Scheduler) (s : Scheduler)
    (h : assocLookup st.schedulers id = some s) :
    (withMutScheduler st id f).writeLog = st.writeLog ++ [(id, f s)] ∧
    assocLookup (withMutScheduler st id f).files id = some (f s) ∧
    assocLookup (withMutScheduler st id f).schedulers id =
      assocLookup (withMutScheduler st id f).files id := by
  unfold withMutScheduler
  rw [h]
  refine ⟨rfl, ?_, ?_⟩ <;>
    simp [write_file, assocLookup_assocInsert_self]

/-- C1 witness: releasing a write accessor that closed the example poll
logs exactly one write of the closed poll and leaves disk equal to memory. -/
theorem c1_commit_on_release_witness :
    (withMutScheduler exState 9 Scheduler.close).writeLog =
      exState.writeLog ++ [(9, Scheduler.close exSched)] ∧
    assocLookup (withMutScheduler exState 9 Scheduler.close).files 9 =
      some (Scheduler.close exSched) ∧
    assocLookup (withMutScheduler exState 9 Scheduler.close).schedulers 9 =
      assocLookup (withMutScheduler exState 9 Scheduler.close).files 9 :=
  c1_commit_on_release exState 9 Scheduler.close exSched (by decide)

/-! ## C7: the title-length validation of poll creation -/

/-- C7: poll creation fails with `TitleTooLong` exactly when the title
exceeds 256 bytes; on that failure nothing is registered and nothing is
persisted (the whole state is unchanged); `TitleTooLong` is the only error
the operation surfaces; and on success the new poll is both registered and
persisted under the new message id. -/
theorem c7_title_too_long (st : SysState) (user : Nat)
    (group : Option Nat) (weeks : Nat) (skip : Option Nat) (title : String)
    (days : Finset Nat) (today : Nat) (id : Nat) :
    ((create_scheduler st user group weeks skip title days today id).2 =
        some CreateError.TitleTooLong ↔ 256 < title.utf8ByteSize) ∧
    (256 < title.utf8ByteSize →
      (create_scheduler st user group weeks skip title days today id).1 = st) ∧
    (∀ e, (create_scheduler st user group weeks skip title days today id).2 =
        some e → e = CreateError.TitleTooLong) ∧
    (title.utf8ByteSize ≤ 256 →
      assocLookup
          (create_scheduler st user group weeks skip title days today id).1.schedulers
          id = some (Scheduler.new user group id weeks skip title days today) ∧
      assocLookup
          (create_scheduler st user group weeks skip title days today id).1.files
          id = some (Scheduler.new user group id weeks skip title days today)) := by
  by_cases h : 256 < title.utf8ByteSize
  · refine ⟨by simp [create_scheduler, h], fun _ => by simp [create_scheduler, h],
      ?_, fun hle => absurd h (by omega)⟩
    intro e _
    cases e
    rfl
  · refine ⟨by simp [create_scheduler, h], fun hgt => absurd hgt h, ?_, fun _ => ?_⟩
    · intro e he
      simp [create_scheduler, h] at he
    · constructor <;>
        simp [create_scheduler, h, write_file, assocLookup_assocInsert_self]

set_option maxRecDepth 4000 in
/-- C7 witness: a 257-byte title is rejected with `TitleTooLong` and the
state is untouched. -/
theorem c7_title_too_long_witness :
    256 < longTitle.utf8ByteSize ∧
    (create_scheduler exState 0 none 1 none longTitle {6} 0 11).1 = exState ∧
    (create_scheduler exState 0 none 1 none longTitle {6} 0 11).2 =
      some CreateError.TitleTooLong := by
  have h := c7_title_too_long exState 0 none 1 none longTitle {6} 0 11
  have hlen : 256 < longTitle.utf8ByteSize := by decide
  exact ⟨hlen, h.2.1 hlen, h.1.mpr hlen⟩

/-! ## C9: the closed flag is monotonic -/

/-- C9: a freshly created poll is open; no mutating poll operation ever
turns `closed` from `true` back to `false` — neither a single operation nor
any sequence of them — and `close` itself sets the flag. -/
theorem c9_closed_monotonic :
    (∀ owner group message weeks skip title days today,
      (Scheduler.new owner group message weeks skip title days today).closed
        = false) ∧
    (∀ s op, s.closed = true → (applyOp s op).closed = true) ∧
    (∀ s ops, s.closed = true → (applyOps s ops).closed = true) ∧
    (∀ s, (Scheduler.close s).closed = true) := by
  have hstep : ∀ s op, s.closed = true → (applyOp s op).closed = true := by
    intro s op h
    cases op <;>
      simp [applyOp, Scheduler.add_response, Scheduler.set_blackout,
        Scheduler.close, h]
  refine ⟨fun _ _ _ _ _ _ _ _ => rfl, hstep, ?_, fun s => rfl⟩
  intro s ops
  induction ops generalizing s with
  | nil => intro h; simpa [applyOps] using h
  | cons op t ih =>
    intro h
    have h2 := hstep s op h
    simpa [applyOps, List.foldl_cons] using ih (applyOp s op) h2

/-- C9 witness: after closing the example poll, further responses and
blackout updates leave it closed. -/
theorem c9_closed_monotonic_witness :
    (applyOps (Scheduler.close exSched)
      [PollOp.addResponse 3 ⟨∅⟩, PollOp.setBlackout ⟨{6}⟩]).closed = true :=
  c9_closed_monotonic.2.2.1 (Scheduler.close exSched) _ rfl

/-! ## C10: an empty response still counts its user as a responder -/

theorem usersFor_add_response_empty (s : Scheduler) (u : Nat) (r : Response)
    (hr : r.dates = ∅) (d : Nat) :
    u ∉ Scheduler.usersFor (s.add_response u r) d := by
  intro hmem
  simp only [Scheduler.usersFor, Scheduler.add_response, List.mem_dedup,
    List.mem_map, List.mem_filter, decide_eq_true_eq] at hmem
  obtain ⟨p, ⟨hp, hpd⟩, hpu⟩ := hmem
  unfold assocInsert at hp
  by_cases hany : s.responses.any (fun q => q.1 = u)
  · rw [if_pos hany] at hp
    obtain ⟨q, hq, hgq⟩ := List.mem_map.mp hp
    by_cases hqu : q.1 = u
    · rw [if_pos hqu] at hgq
      rw [← hgq] at hpd
      rw [hr] at hpd
      simp at hpd
    · rw [if_neg hqu] at hgq
      rw [← hgq] at hpu
      exact hqu hpu
  · rw [if_neg hany] at hp
    rcases List.mem_append.mp hp with h1 | h2
    · have := List.any_eq_false.mp (Bool.eq_false_iff.mpr hany) p h1
      simp only [decide_eq_true_eq] at this
      exact this hpu
    · have hp2 : p = (u, r) := by simpa using h2
      rw [hp2, hr] at hpd
      simp at hpd

/-- C10: `add_response` stores the response under the user's key even when
its date set is empty: the user's entry is upserted (overwriting any previous
response), the responder count grows by one for a fresh user and stays put
for a returning one, the "Responded" summary takes its non-zero branch and
lists the user's mention, and an empty response contributes the user to no
date's tally set. -/
theorem c10_empty_response_counts (s : Scheduler) (u : Nat) (r : Response) :
    (s.add_response u r).get_user_response u = some r ∧
    (s.add_response u r).responses ≠ [] ∧
    (u ∈ s.responses.map Prod.fst →
      (s.add_response u r).responses.length = s.responses.length) ∧
    (u ∉ s.responses.map Prod.fst →
      (s.add_response u r).responses.length = s.responses.length + 1) ∧
    (s.add_response u r).get_responses =
      "**" ++ toString (s.add_response u r).responses.length ++ "** (" ++
        String.intercalate ", "
          ((s.add_response u r).responses.map (fun p => Scheduler.mention p.1))
        ++ ")" ∧
    Scheduler.mention u ∈
      (s.add_response u r).responses.map (fun p => Scheduler.mention p.1) ∧
    (r.dates = ∅ → ∀ d, u ∉ Scheduler.usersFor (s.add_response u r) d) := by
  refine ⟨?_, ?_, ?_, ?_, ?_, ?_, fun hr d => usersFor_add_response_empty s u r hr d⟩
  · simp [Scheduler.get_user_response, Scheduler.add_response,
      assocLookup_assocInsert_self]
  · simpa [Scheduler.add_response] using assocInsert_ne_nil s.responses u r
  · intro h
    simpa [Scheduler.add_response] using
      assocInsert_length_of_mem s.responses u r h
  · intro h
    simpa [Scheduler.add_response] using
      assocInsert_length_of_not_mem s.responses u r h
  · have hne : (s.add_response u r).responses ≠ [] := by
      simpa [Scheduler.add_response] using assocInsert_ne_nil s.responses u r
    have hempty : (s.add_response u r).responses.isEmpty = false := by
      rcases h : (s.add_response u r).responses with _ | ⟨q, t⟩
      · exact absurd h hne
      · rfl
    simp [Scheduler.get_responses, hempty]
  · have hk : u ∈ (assocInsert s.responses u r).map Prod.fst :=
      mem_keys_assocInsert s.responses u r
    obtain ⟨p, hp, hfst⟩ := List.mem_map.mp hk
    exact List.mem_map.mpr ⟨p, by simpa [Scheduler.add_response] using hp,
      by rw [hfst]⟩

/-- C10 witness: user 3 submits an empty response to the example poll — the
entry is stored, the responder count grows from 2 to 3, and user 3 joins no
date's tally. -/
theorem c10_empty_response_counts_witness :
    (exSched.add_response 3 ⟨∅⟩).get_user_response 3 = some ⟨∅⟩ ∧
    (exSched.add_response 3 ⟨∅⟩).responses.length =
      exSched.responses.length + 1 ∧
    (3 : Nat) ∉ Scheduler.usersFor (exSched.add_response 3 ⟨∅⟩) 6 := by
  have h := c10_empty_response_counts exSched 3 ⟨∅⟩
  exact ⟨h.1, h.2.2.2.1 (by decide), h.2.2.2.2.2.2 rfl 6⟩

/-! ## C5: the select-all transition -/

/-- C5 counterexample: with candidate dates 0 and 1 and date 0 blacked out,
`select_all` in a `Blackout` session produces the draft containing only date
1 — not all candidate dates, as the claim states for the `Blackout` kind. -/
theorem c5_select_all_counterexample :
    pressStep [0, 1] {0} ResponseType.Blackout ⟨{0}⟩ Press.select_all ≠
      ⟨({0, 1} : Finset Nat)⟩ ∧
    pressStep [0, 1] {0} ResponseType.Blackout ⟨{0}⟩ Press.select_all =
      ⟨({1} : Finset Nat)⟩ := by
  constructor <;> decide

/-- C5 amended: the `select_all` arm of `get_response` never consults the
response kind — for `Normal` and `Blackout` alike the new draft holds exactly
the candidate dates not in the current blackout set. -/
theorem c5_select_all_filters_blackout (dates : List Nat)
    (blackout_dates : Finset Nat) (rt : ResponseType) (r : Response)
    (d : Nat) :
    d ∈ (pressStep dates blackout_dates rt r Press.select_all).dates ↔
      d ∈ dates ∧ d ∉ blackout_dates := by
  simp [pressStep, List.mem_filter]

/-! ## C6: report chunking -/


theorem bigLine_length : bigLine.length = 1999 := by
  rw [bigLine, String.length_mk, List.length_replicate]

/-- C6 counterexample: on the two lines [1999 chars, 1 char] the first
produced chunk has length exactly 2000 = max_chunk_chars, so "every produced
chunk has length strictly less than max_chunk_chars" fails: the boundary test
`content.len() + line.len() >= 2000` ignores the newline appended after each
line. -/
theorem c6_chunk_reaches_limit :
    (Scheduler.allChunks [bigLine, "b"]).map String.length = [2000, 2] ∧
    ¬ ∀ c ∈ Scheduler.allChunks [bigLine, "b"], c.length < 2000 := by
  have hbig : ("" ++ bigLine ++ "\n").length = 2000 := by
    rw [String.length_append, String.length_append, bigLine_length]
    decide
  have hstep1 : Scheduler.chunkStep ([], "") bigLine = ([], "" ++ bigLine ++ "\n") := by
    unfold Scheduler.chunkStep
    rw [if_neg (by rw [bigLine_length]; decide)]
  have hstep2 : Scheduler.chunkStep ([], "" ++ bigLine ++ "\n") "b" =
      (["" ++ bigLine ++ "\n"], "b" ++ "\n") := by
    unfold Scheduler.chunkStep
    rw [if_pos (by rw [hbig]; decide)]
    rfl
  have hchunks : Scheduler.allChunks [bigLine, "b"] =
      ["" ++ bigLine ++ "\n", "b" ++ "\n"] := by
    unfold Scheduler.allChunks Scheduler.show_details_chunks
    rw [List.foldl_cons, hstep1, List.foldl_cons, hstep2, List.foldl_nil]
    rfl
  constructor
  · rw [hchunks]
    simp only [List.map_cons, List.map_nil, hbig]
    decide
  · intro hall
    have := hall ("" ++ bigLine ++ "\n") (by rw [hchunks]; simp)
    rw [hbig] at this
    omega

theorem chunk_fold_bound (lines : List String) :
    ∀ acc : List String × String,
      (∀ l ∈ lines, l.length < 2000) →
      (∀ c ∈ acc.1, c.length ≤ 2000) →
      acc.2.length ≤ 2000 →
      (∀ c ∈ (lines.foldl Scheduler.chunkStep acc).1, c.length ≤ 2000) ∧
      (lines.foldl Scheduler.chunkStep acc).2.length ≤ 2000 := by
  induction lines with
  | nil =>
    intro acc _ h1 h2
    exact ⟨h1, h2⟩
  | cons line rest ih =>
    intro acc hl h1 h2
    have hline : line.length < 2000 := hl line (List.mem_cons_self _ _)
    have hrest : ∀ l ∈ rest, l.length < 2000 :=
      fun l h => hl l (List.mem_cons_of_mem _ h)
    have hnl : ("\n" : String).length = 1 := rfl
    rw [List.foldl_cons]
    by_cases hc : acc.2.length + line.length ≥ 2000
    · have hstep : Scheduler.chunkStep acc line =
          (acc.1 ++ [acc.2], line ++ "\n") := by
        unfold Scheduler.chunkStep
        rw [if_pos hc]
      rw [hstep]
      refine ih _ hrest ?_ ?_
      · intro c hc2
        rcases List.mem_append.mp hc2 with h | h
        · exact h1 c h
        · have hce : c = acc.2 := by simpa using h
          rw [hce]
          exact h2
      · rw [String.length_append, hnl]
        omega
    · have hstep : Scheduler.chunkStep acc line =
          (acc.1, acc.2 ++ line ++ "\n") := by
        unfold Scheduler.chunkStep
        rw [if_neg hc]
      rw [hstep]
      refine ih _ hrest h1 ?_
      rw [String.length_append, String.length_append, hnl]
      omega

/-- C6 amended: when every report line is shorter than 2000 characters (the
`assert!(line.len() < 2000)` precondition), every chunk `show_details`
produces — the closed ones and the final `last_content` — has length at most
2000.  The bound 2000 is attained (see the counterexample): the boundary test
compares `content.len() + line.len()` against 2000 before the newline is
appended, so "strictly less than 2000" must weaken to "at most 2000". -/
theorem c6_chunks_size_le (lines : List String)
    (h : ∀ l ∈ lines, l.length < 2000) :
    ∀ c ∈ Scheduler.allChunks lines, c.length ≤ 2000 := by
  have hb := chunk_fold_bound lines ([], "") h
    (by intro c hc; simp at hc) (by decide)
  intro c hc
  unfold Scheduler.allChunks at hc
  rcases List.mem_append.mp hc with h1 | h2
  · exact hb.1 c h1
  · have hce : c = (Scheduler.show_details_chunks lines).2 := by simpa using h2
    rw [hce]
    exact hb.2

/-- C6 witness: on the two short lines "a", "b" the single produced chunk is
within the bound. -/
theorem c6_chunks_size_le_witness :
    ("a\nb\n" : String) ∈ Scheduler.allChunks ["a", "b"] ∧
    ("a\nb\n" : String).length ≤ 2000 :=
  ⟨by decide, c6_chunks_size_le ["a", "b"] (by decide) "a\nb\n" (by decide)⟩

/-! ## C4: the response session commits exactly the folded draft -/

theorem get_response_timeout (dates : List Nat) (blk : Finset Nat)
    (rt : ResponseType) :
    ∀ (es : List Press) (seed : Response), (∀ p ∈ es, p ≠ Press.submit) →
      get_response dates blk rt seed es = none := by
  intro es
  induction es with
  | nil => intro seed _; rfl
  | cons p rest ih =>
    intro seed h
    have hp : p ≠ Press.submit := h p (List.mem_cons_self _ _)
    have hrest : ∀ q ∈ rest, q ≠ Press.submit :=
      fun q hq => h q (List.mem_cons_of_mem _ hq)
    cases p with
    | submit => exact absurd rfl hp
    | select_all => exact ih _ hrest
    | clear_all => exact ih _ hrest
    | select i => exact ih _ hrest

theorem get_response_submit (dates : List Nat) (blk : Finset Nat)
    (rt : ResponseType) :
    ∀ (es : List Press) (seed : Response), (∀ p ∈ es, p ≠ Press.submit) →
      get_response dates blk rt seed (es ++ [Press.submit]) =
        some (es.foldl (pressStep dates blk rt) seed) := by
  intro es
  induction es with
  | nil => intro seed _; rfl
  | cons p rest ih =>
    intro seed h
    have hp : p ≠ Press.submit := h p (List.mem_cons_self _ _)
    have hrest : ∀ q ∈ rest, q ≠ Press.submit :=
      fun q hq => h q (List.mem_cons_of_mem _ hq)
    cases p with
    | submit => exact absurd rfl hp
    | select_all => exact ih _ hrest
    | clear_all => exact ih _ hrest
    | select i => exact ih _ hrest

/-- C4: a response session is exactly a fold of its select / select-all /
clear-all transitions over the seeded draft.  Ending with `submit` returns
precisely that folded draft; an event stream that never submits (the
14-minute deadline elapses) returns nothing.  At the handler level a
timed-out session leaves the whole system state untouched, while a submitted
one commits exactly the folded draft through the exclusive-write accessor —
`add_response` for a `Normal` session, `set_blackout` for a `Blackout`
one. -/
theorem c4_session_commit (dates : List Nat) (blackout_dates : Finset Nat)
    (rt : ResponseType) (seed : Response) (es : List Press)
    (hes : ∀ p ∈ es, p ≠ Press.submit) :
    get_response dates blackout_dates rt seed (es ++ [Press.submit]) =
      some (es.foldl (pressStep dates blackout_dates rt) seed) ∧
    get_response dates blackout_dates rt seed es = none ∧
    (∀ st user id cr, handle_get_response st user id rt cr es = st) ∧
    (∀ st user id sch, assocLookup st.schedulers id = some sch →
      handle_get_response st user id rt true (es ++ [Press.submit]) =
        withMutScheduler st id (commitResult rt user
          (es.foldl (pressStep sch.get_dates sch.get_blackout_dates rt)
            (sessionSeed sch user rt)))) := by
  refine ⟨get_response_submit dates blackout_dates rt es seed hes,
    get_response_timeout dates blackout_dates rt es seed hes, ?_, ?_⟩
  · intro st user id cr
    unfold handle_get_response
    cases hlk : assocLookup st.schedulers id with
    | none => rfl
    | some sch =>
      have ht : ∀ seed2, get_response sch.get_dates sch.get_blackout_dates rt
          seed2 es = none :=
        fun seed2 => get_response_timeout _ _ _ es seed2 hes
      by_cases hcr : cr = true
      · cases rt <;> simp [hcr, ht]
      · simp [hcr]
  · intro st user id sch hlk
    cases rt with
    | Normal =>
      have hs := get_response_submit sch.get_dates sch.get_blackout_dates
        ResponseType.Normal es
        ((sch.get_user_response user).getD Response.default) hes
      unfold handle_get_response
      rw [hlk]
      simp only [not_true, if_false]
      rw [hs]
      rfl
    | Blackout =>
      have hs := get_response_submit sch.get_dates sch.get_blackout_dates
        ResponseType.Blackout es ⟨sch.get_blackout_dates⟩ hes
      unfold handle_get_response
      rw [hlk]
      simp only [not_true, if_false]
      rw [hs]
      rfl

/-- C4 witness: the session select 0, clear-all, select 1, submit on the
example poll commits exactly the folded draft containing date 7 for user 3:
the in-memory and persisted record both gain that response, and the write
log shows exactly that one committed write. -/
theorem c4_session_commit_witness :
    get_response exSched.get_dates exSched.get_blackout_dates
        ResponseType.Normal (sessionSeed exSched 3 ResponseType.Normal)
        [Press.select 0, Press.clear_all, Press.select 1, Press.submit] =
      some ⟨{7}⟩ ∧
    handle_get_response exState 3 9 ResponseType.Normal true
        [Press.select 0, Press.clear_all, Press.select 1, Press.submit] =
      withMutScheduler exState 9
        (commitResult ResponseType.Normal 3 ⟨{7}⟩) ∧
    handle_get_response exState 3 9 ResponseType.Normal true
        [Press.select 0, Press.clear_all] = exState := by
  have h := c4_session_commit exSched.get_dates exSched.get_blackout_dates
    ResponseType.Normal (sessionSeed exSched 3 ResponseType.Normal)
    [Press.select 0, Press.clear_all, Press.select 1] (by decide)
  have h2 := c4_session_commit exSched.get_dates exSched.get_blackout_dates
    ResponseType.Normal (sessionSeed exSched 3 ResponseType.Normal)
    [Press.select 0, Press.clear_all] (by decide)
  refine ⟨?_, ?_, h2.2.2.1 exState 3 9 true⟩
  · rw [show ([Press.select 0, Press.clear_all, Press.select 1, Press.submit] :
        List Press) =
      [Press.select 0, Press.clear_all, Press.select 1] ++ [Press.submit]
      from rfl]
    rw [h.1]
    decide
  · have := h.2.2.2 exState 3 9 exSched (by decide)
    rw [show ([Press.select 0, Press.clear_all, Press.select 1, Press.submit] :
        List Press) =
      [Press.select 0, Press.clear_all, Press.select 1] ++ [Press.submit]
      from rfl]
    rw [this]
    congr 1

/-! ## C2: the date window -/

theorem nextSatFrom_unfold (d : Nat) :
    nextSatFrom 7 d =
      (if d % 7 = 6 then d else
       if (d + 1) % 7 = 6 then d + 1 else
       if (d + 2) % 7 = 6 then d + 2 else
       if (d + 3) % 7 = 6 then d + 3 else
       if (d + 4) % 7 = 6 then d + 4 else
       if (d + 5) % 7 = 6 then d + 5 else
       if (d + 6) % 7 = 6 then d + 6 else d + 7) := rfl

theorem nextSatFrom_seven (d : Nat) :
    nextSatFrom 7 d = d + (13 - d % 7) % 7 := by
  rw [nextSatFrom_unfold]
  split_ifs <;> omega

theorem mem_dateRange (a b d : Nat) : d ∈ dateRange a b ↔ a ≤ d ∧ d < b := by
  simp only [dateRange, List.mem_map, List.mem_range]
  constructor
  · rintro ⟨k, hk, rfl⟩
    omega
  · rintro ⟨h1, h2⟩
    exact ⟨d - a, by omega, by omega⟩

theorem dateRange_pairwise (a b : Nat) : (dateRange a b).Pairwise (· < ·) := by
  unfold dateRange
  exact (List.pairwise_lt_range _).map _ (fun x y h => by omega)

/-- C2: the generated date window.  With `start0` the first calendar date
strictly after `today` falling on Saturday, `start = start0 + 7·S` and
`stop = start + 7·W`, the candidate list of a new poll holds exactly the
dates of `[start, stop)` whose weekday is in the filter, strictly ascending
and duplicate-free, and every element's weekday is in the filter. -/
theorem c2_date_window (today weeks skip : Nat) (days : Finset Nat)
    (owner : Nat) (group : Option Nat) (message : Nat) (title : String)
    (hw1 : 1 ≤ weeks) (hw2 : weeks ≤ 10) (hdays : days.Nonempty) :
    (today < nextSatFrom 7 (today + 1) ∧
      weekday (nextSatFrom 7 (today + 1)) = satResidue ∧
      (∀ e, today < e → weekday e = satResidue →
        nextSatFrom 7 (today + 1) ≤ e)) ∧
    (∀ d, d ∈ (Scheduler.new owner group message weeks (some skip) title days
        today).dates ↔
      nextSatFrom 7 (today + 1) + 7 * skip ≤ d ∧
      d < nextSatFrom 7 (today + 1) + 7 * skip + 7 * weeks ∧
      weekday d ∈ days) ∧
    (Scheduler.new owner group message weeks (some skip) title days
      today).dates.Pairwise (· < ·) ∧
    (Scheduler.new owner group message weeks (some skip) title days
      today).dates.Nodup ∧
    (∀ d ∈ (Scheduler.new owner group message weeks (some skip) title days
      today).dates, weekday d ∈ days) := by
  have hdates : (Scheduler.new owner group message weeks (some skip) title days
      today).dates =
      (dateRange (nextSatFrom 7 (today + 1) + 7 * skip)
        (nextSatFrom 7 (today + 1) + 7 * skip + 7 * weeks)).filter
        (fun d => weekday d ∈ days) := rfl
  have hmem : ∀ d, d ∈ (Scheduler.new owner group message weeks (some skip)
      title days today).dates ↔
      nextSatFrom 7 (today + 1) + 7 * skip ≤ d ∧
      d < nextSatFrom 7 (today + 1) + 7 * skip + 7 * weeks ∧
      weekday d ∈ days := by
    intro d
    rw [hdates, List.mem_filter, mem_dateRange]
    simp only [decide_eq_true_eq]
    constructor
    · rintro ⟨⟨h1, h2⟩, h3⟩
      exact ⟨h1, h2, h3⟩
    · rintro ⟨h1, h2, h3⟩
      exact ⟨⟨h1, h2⟩, h3⟩
  have hpw : (Scheduler.new owner group message weeks (some skip) title days
      today).dates.Pairwise (· < ·) := by
    rw [hdates]
    exact (dateRange_pairwise _ _).filter _
  refine ⟨?_, hmem, hpw, hpw.imp (fun h => Nat.ne_of_lt h),
    fun d hd => ((hmem d).mp hd).2.2⟩
  rw [nextSatFrom_seven]
  unfold weekday satResidue
  refine ⟨by omega, by omega, fun e he hw => by omega⟩

/-- C2 witness: from day 0 (a Sunday), one week, no skip, Saturdays only —
the window is exactly day 6, the coming Saturday. -/
theorem c2_date_window_witness :
    (6 ∈ (Scheduler.new 0 none 9 1 (some 0) "t" {6} 0).dates) ∧
    (13 ∈ (Scheduler.new 0 none 9 1 (some 0) "t" {6} 0).dates ↔ False) := by
  have h := c2_date_window 0 1 0 {6} 0 none 9 "t" (by decide) (by decide)
    ⟨6, by decide⟩
  constructor
  · exact (h.2.1 6).mpr (by decide)
  · rw [h.2.1 13]
    decide

/-! ## C3 / C8: the tally -/

theorem resultsPairs_eq (s : Scheduler) :
    Scheduler.resultsPairs s =
      (s.dates.filter (fun d => d ∉ s.blackout_dates)).map
        (fun d => (d, Scheduler.usersFor s d)) := by
  unfold Scheduler.resultsPairs
  suffices h : ∀ l : List Nat,
      l.filterMap (fun date => if date ∈ s.blackout_dates then none
        else some (date, Scheduler.usersFor s date)) =
      (l.filter (fun d => d ∉ s.blackout_dates)).map
        (fun d => (d, Scheduler.usersFor s d)) from h s.dates
  intro l
  induction l with
  | nil => rfl
  | cons a t ih =>
    by_cases ha : a ∈ s.blackout_dates
    · simp [List.filterMap_cons, List.filter_cons, ha, ih]
    · simp [List.filterMap_cons, List.filter_cons, ha, ih]

theorem get_results_eq (s : Scheduler) (detailed : Bool) :
    s.get_results detailed =
      (s.dates.filter (fun d => d ∉ s.blackout_dates)).map
        (fun d => baseLine s d ++
          (if detailed then detailSuffix s d else "")) := by
  unfold Scheduler.get_results
  rw [resultsPairs_eq, List.map_map, List.map_map]
  apply List.map_congr_left
  intro d hd
  simp only [Function.comp_apply]
  have hmax : (((s.dates.filter (fun d => d ∉ s.blackout_dates)).map
      ((fun p : Nat × List Nat => p.2.length) ∘
        (fun d => (d, Scheduler.usersFor s d)))).max?).getD 0 = maxTally s := rfl
  rw [hmax]
  unfold baseLine detailSuffix
  by_cases hdet : detailed = true
  · by_cases hemp : (Scheduler.usersFor s d).isEmpty
    · simp [hdet, hemp, String.append_empty, sortedResponders]
    · simp [hdet, hemp, String.append_empty, sortedResponders,
        String.append_assoc]
  · simp [hdet, String.append_empty]

theorem distinctResponders_card (s : Scheduler) (d : Nat) :
    (distinctResponders s d).card = (Scheduler.usersFor s d).length := by
  rw [distinctResponders, List.card_toFinset]
  unfold Scheduler.usersFor
  rw [List.dedup_idem]

/-- C3: the non-detailed tally has one line per candidate date not blacked
out — `|candidate_dates| − |blackout ∩ candidate_dates|` lines in
candidate-date order — each line carrying the number of distinct users whose
response contains the date, emphasized (underline markers) exactly when that
count equals the positive maximum over all non-blacked-out dates; blacked-out
dates are omitted entirely. -/
theorem c3_tally_lines (s : Scheduler) (h : s.dates.Nodup) :
    (s.get_results false).length =
      s.dates.length - (s.blackout_dates ∩ s.dates.toFinset).card ∧
    s.get_results false =
      (s.dates.filter (fun d => d ∉ s.blackout_dates)).map
        (fun d =>
          if 0 < maxTally s ∧ (distinctResponders s d).card = maxTally s then
            "__`" ++ Scheduler.formatDate d ++ ":`__ " ++
              toString (distinctResponders s d).card
          else
            "`" ++ Scheduler.formatDate d ++ ":` " ++
              toString (distinctResponders s d).card) ∧
    maxTally s = (((s.dates.filter (fun d => d ∉ s.blackout_dates)).map
      (fun d => (distinctResponders s d).card)).max?).getD 0 := by
  refine ⟨?_, ?_, ?_⟩
  · have hpart := List.length_eq_length_filter_add
      (l := s.dates) (fun d => decide (d ∈ s.blackout_dates))
    have hfe : s.dates.filter (fun d => decide (d ∉ s.blackout_dates)) =
        s.dates.filter (fun d => ! decide (d ∈ s.blackout_dates)) := by
      apply List.filter_congr
      intro d _
      simp [decide_not]
    have hin : (s.dates.filter (fun d => decide (d ∈ s.blackout_dates))).length
        = (s.blackout_dates ∩ s.dates.toFinset).card := by
      rw [← List.toFinset_card_of_nodup (h.filter _)]
      congr 1
      rw [List.toFinset_filter]
      ext x
      simp [Finset.mem_filter, Finset.mem_inter, and_comm]
    rw [get_results_eq, List.length_map, hfe]
    omega
  · rw [get_results_eq]
    simp only [distinctResponders_card]
    apply List.map_congr_left
    intro d hd
    rw [baseLine]
    simp [String.append_empty]
  · simp only [distinctResponders_card]
    rfl

/-- C3 witness: the example poll has three candidate dates, one blacked out,
and its tally renders exactly two lines. -/
theorem c3_tally_lines_witness :
    (exSched.get_results false).length =
      exSched.dates.length -
        (exSched.blackout_dates ∩ exSched.dates.toFinset).card ∧
    (exSched.get_results false).length = 2 :=
  ⟨(c3_tally_lines exSched (by decide)).1, by decide⟩

/-- C8: the detailed tally renders the same per-date base lines as the
non-detailed one and appends to each line its responder list — the distinct
responding users, sorted ascending, as mentions after a dash (and nothing
when the date has no responders). -/
theorem c8_detailed_appends_sorted_users (s : Scheduler) :
    s.get_results true =
      (s.dates.filter (fun d => d ∉ s.blackout_dates)).map
        (fun d => baseLine s d ++ detailSuffix s d) ∧
    s.get_results false =
      (s.dates.filter (fun d => d ∉ s.blackout_dates)).map
        (fun d => baseLine s d) ∧
    (∀ d, detailSuffix s d = if (Scheduler.usersFor s d).isEmpty then ""
      else " - " ++ String.intercalate ", "
        ((sortedResponders s d).map Scheduler.mention)) ∧
    (∀ d, (sortedResponders s d).Sorted (· ≤ ·) ∧
      (sortedResponders s d).Perm (Scheduler.usersFor s d)) := by
  refine ⟨?_, ?_, fun d => rfl,
    fun d => ⟨List.sorted_insertionSort _ _, List.perm_insertionSort _ _⟩⟩
  · rw [get_results_eq]
    simp
  · rw [get_results_eq]
    apply List.map_congr_left
    intro d hd
    simp [String.append_empty]
